import Mathlib

set_option maxHeartbeats 1000000

/- Shallow embedding of the numeric-kernel layer of this repository:
   the HQQ bit-packed dequantization codec (mistralrs-quant/src/hqq/hqq_op.rs)
   and the rotary-embedding / quantized-linear layers
   (mistralrs-core/src/layers.rs), together with theorems settling the
   frozen claims about them.

   Modelling conventions:
   - `u8` and (bit patterns of) `i32` storage values are `ℕ`; the floating
     scalars of `scale` / `zero` / table entries are modelled exactly as `ℚ`
     (the claims under study are about indexing, field extraction and
     control flow, not float rounding).
   - A Rust panic (out-of-bounds index, `unwrap` of `None`, `%` by zero) is
     `Option.none`; a returned `Result::Err` is `Except.error`.  Functions
     that can do both return `Option (Except String _)`. -/

namespace Hqq

/-- Checked write `out[idx] = v` into a vector; `none` models the
out-of-bounds panic of a slice index. -/
def setChecked (out : List ℚ) (idx : ℕ) (v : ℚ) : Option (List ℚ) :=
  if idx < out.length then some (out.set idx v) else none

/-- Rust `%` on `usize`: panics (`none`) on a zero divisor. -/
def rustMod (a b : ℕ) : Option ℕ :=
  if b = 0 then none else some (a % b)

/-- One iteration's block of statements
`out[i + nrows * k] = (T::from_f64(field_k v) - zv) * sv` for the successive
extracted fields, `k` counting up from the given start index.  Each store is
bounds-checked, as in Rust. -/
def writeFields (nrows i : ℕ) (v : ℕ) (zv sv : ℚ) :
    List (ℕ → ℕ) → ℕ → List ℚ → Option (List ℚ)
  | [], _, out => some out
  | f :: fs, k, out =>
    match setChecked out (i + nrows * k) ((((f v : ℕ) : ℚ) - zv) * sv) with
    | none => none
    | some out1 => writeFields nrows i v zv sv fs (k + 1) out1

/-- The `for (i, w) in w.iter().enumerate()` loop shared by the five HQQ
dequantize kernels: for storage unit `v` at index `i`, read
`z[i % w]`, `s[i % w]` (bounds-checked, evaluated before the stores, `z`
first as in the source expression) and store every extracted field. -/
def dequantLoop (fields : List (ℕ → ℕ)) (h w : ℕ) (s z : List ℚ) :
    List ℕ → ℕ → List ℚ → Option (List ℚ)
  | [], _, out => some out
  | v :: vs, i, out =>
    match rustMod i w with
    | none => none
    | some j =>
      match z[j]?, s[j]? with
      | some zv, some sv =>
        match writeFields (h * w) i v zv sv fields 0 out with
        | none => none
        | some out1 => dequantLoop fields h w s z vs (i + 1) out1
      | _, _ => none

/-- Common shape of `Dequant{8,4,2,1,3}Bit::dequantize`: allocate
`vec![T::default(); w.len() * pack_factor]` and run the loop, where
`fields` lists the per-unit bit-extraction expressions in source order. -/
def dequantizeG (fields : List (ℕ → ℕ)) (h w : ℕ) (ws : List ℕ)
    (s z : List ℚ) : Option (List ℚ) :=
  dequantLoop fields h w s z ws 0 (List.replicate (ws.length * fields.length) (0 : ℚ))

/-- CPU storage of a candle tensor, restricted to the payloads the HQQ ops
inspect.  Integer payloads are `ℕ` (for `I32`, the 32-bit pattern). -/
inductive CpuStorage where
  | U8 : List ℕ → CpuStorage
  | U32 : List ℕ → CpuStorage
  | I32 : List ℕ → CpuStorage
  | I64 : List ℤ → CpuStorage
  | BF16 : List ℚ → CpuStorage
  | F16 : List ℚ → CpuStorage
  | F32 : List ℚ → CpuStorage
  | F64 : List ℚ → CpuStorage
deriving DecidableEq

/-- The only part of a candle `Layout` the HQQ ops consult. -/
structure Layout where
  contiguous : Bool
deriving DecidableEq

/-- Dispatch over the `(s, z)` storage pair shared by every
`cpu_fwd`: the three supported matching float pairs run `deq` and wrap the
result in the same float storage with shape `shape`; every other pair is the
`Dtype mismatch` bail. -/
def floatDispatch (deq : List ℚ → List ℚ → Option (List ℚ))
    (shape : List ℕ) (s z : CpuStorage) :
    Option (Except String (CpuStorage × List ℕ)) :=
  match s, z with
  | CpuStorage.F32 s_slice, CpuStorage.F32 z_slice =>
    (deq s_slice z_slice).map (fun o => Except.ok (CpuStorage.F32 o, shape))
  | CpuStorage.F16 s_slice, CpuStorage.F16 z_slice =>
    (deq s_slice z_slice).map (fun o => Except.ok (CpuStorage.F16 o, shape))
  | CpuStorage.BF16 s_slice, CpuStorage.BF16 z_slice =>
    (deq s_slice z_slice).map (fun o => Except.ok (CpuStorage.BF16 o, shape))
  | _, _ => some (Except.error "Dtype mismatch, expected one of f32, f16, bf16")

/-- `Dequant8Bit { h, w }`. -/
structure Dequant8Bit where
  h : ℕ
  w : ℕ

/-- The single (whole-byte) field read by the 8-bit kernel. -/
def Dequant8Bit.fieldList : List (ℕ → ℕ) := [fun v => v]

/-- `Dequant8Bit::dequantize`: `out[i] = (from_f64(*w) - z[j]) * s[j]` with
`j = i % self.w`, over an output of `w.len()` elements. -/
def Dequant8Bit.dequantize (self : Dequant8Bit) (w : List ℕ) (s z : List ℚ) :
    Option (List ℚ) :=
  dequantizeG Dequant8Bit.fieldList self.h self.w w s z

/-- `Dequant8Bit::cpu_fwd`: weight must be `U8`, all three layouts
contiguous, scale/zero a matching float pair; output shape `[h, w]`. -/
def Dequant8Bit.cpu_fwd (self : Dequant8Bit) (w : CpuStorage) (l_w : Layout)
    (s : CpuStorage) (l_s : Layout) (z : CpuStorage) (l_z : Layout) :
    Option (Except String (CpuStorage × List ℕ)) :=
  match w with
  | CpuStorage.U8 w_slice =>
    if !(l_w.contiguous && l_s.contiguous && l_z.contiguous) then
      some (Except.error "All inputs must be contiguous")
    else
      floatDispatch (fun ss zs => self.dequantize w_slice ss zs) [self.h, self.w] s z
  | _ => some (Except.error "Weight must be u8, HQQ dequant 8-bit")

/-- `Dequant4Bit { h, w }`. -/
structure Dequant4Bit where
  h : ℕ
  w : ℕ

/-- The two nibble extractions of the 4-bit kernel, in source order
(high nibble, then low nibble). -/
def Dequant4Bit.fieldList : List (ℕ → ℕ) :=
  [fun v => (v &&& 0xF0) >>> 4, fun v => v &&& 0x0F]

/-- `Dequant4Bit::dequantize`: writes `out[i]` and `out[i + nrows]` with
`nrows = h * w`, over an output of `w.len() * 2` elements. -/
def Dequant4Bit.dequantize (self : Dequant4Bit) (w : List ℕ) (s z : List ℚ) :
    Option (List ℚ) :=
  dequantizeG Dequant4Bit.fieldList self.h self.w w s z

/-- `Dequant4Bit::cpu_fwd` (PACK_FACTOR = 2). -/
def Dequant4Bit.cpu_fwd (self : Dequant4Bit) (w : CpuStorage) (l_w : Layout)
    (s : CpuStorage) (l_s : Layout) (z : CpuStorage) (l_z : Layout) :
    Option (Except String (CpuStorage × List ℕ)) :=
  match w with
  | CpuStorage.U8 w_slice =>
    if !(l_w.contiguous && l_s.contiguous && l_z.contiguous) then
      some (Except.error "All inputs must be contiguous")
    else
      floatDispatch (fun ss zs => self.dequantize w_slice ss zs) [2 * self.h, self.w] s z
  | _ => some (Except.error "Weight must be u8, HQQ dequant 4-bit")

/-- `Dequant2Bit { h, w }`. -/
structure Dequant2Bit where
  h : ℕ
  w : ℕ

/-- The four crumb extractions of the 2-bit kernel, in source order. -/
def Dequant2Bit.fieldList : List (ℕ → ℕ) :=
  [fun v => (v &&& 0xC0) >>> 6, fun v => (v &&& 0x30) >>> 4,
   fun v => (v &&& 0x0C) >>> 2, fun v => v &&& 0x03]

/-- `Dequant2Bit::dequantize`, output `w.len() * 4` elements. -/
def Dequant2Bit.dequantize (self : Dequant2Bit) (w : List ℕ) (s z : List ℚ) :
    Option (List ℚ) :=
  dequantizeG Dequant2Bit.fieldList self.h self.w w s z

/-- `Dequant2Bit::cpu_fwd` (PACK_FACTOR = 4). -/
def Dequant2Bit.cpu_fwd (self : Dequant2Bit) (w : CpuStorage) (l_w : Layout)
    (s : CpuStorage) (l_s : Layout) (z : CpuStorage) (l_z : Layout) :
    Option (Except String (CpuStorage × List ℕ)) :=
  match w with
  | CpuStorage.U8 w_slice =>
    if !(l_w.contiguous && l_s.contiguous && l_z.contiguous) then
      some (Except.error "All inputs must be contiguous")
    else
      floatDispatch (fun ss zs => self.dequantize w_slice ss zs) [4 * self.h, self.w] s z
  | _ => some (Except.error "Weight must be u8, HQQ dequant 2-bit")

/-- `Dequant1Bit { h, w }`. -/
structure Dequant1Bit where
  h : ℕ
  w : ℕ

/-- The eight bit extractions of the 1-bit kernel, in source order. -/
def Dequant1Bit.fieldList : List (ℕ → ℕ) :=
  [fun v => (v &&& 0x80) >>> 7, fun v => (v &&& 0x40) >>> 6,
   fun v => (v &&& 0x20) >>> 5, fun v => (v &&& 0x10) >>> 4,
   fun v => (v &&& 0x08) >>> 3, fun v => (v &&& 0x04) >>> 2,
   fun v => (v &&& 0x02) >>> 1, fun v => v &&& 0x01]

/-- `Dequant1Bit::dequantize`, output `w.len() * 8` elements. -/
def Dequant1Bit.dequantize (self : Dequant1Bit) (w : List ℕ) (s z : List ℚ) :
    Option (List ℚ) :=
  dequantizeG Dequant1Bit.fieldList self.h self.w w s z

/-- `Dequant1Bit::cpu_fwd` (PACK_FACTOR = 8). -/
def Dequant1Bit.cpu_fwd (self : Dequant1Bit) (w : CpuStorage) (l_w : Layout)
    (s : CpuStorage) (l_s : Layout) (z : CpuStorage) (l_z : Layout) :
    Option (Except String (CpuStorage × List ℕ)) :=
  match w with
  | CpuStorage.U8 w_slice =>
    if !(l_w.contiguous && l_s.contiguous && l_z.contiguous) then
      some (Except.error "All inputs must be contiguous")
    else
      floatDispatch (fun ss zs => self.dequantize w_slice ss zs) [8 * self.h, self.w] s z
  | _ => some (Except.error "Weight must be u8, HQQ dequant 1-bit")

/-- `Dequant3Bit { h, w }`. -/
structure Dequant3Bit where
  h : ℕ
  w : ℕ

/-- The ten 3-bit field extractions of the 3-bit kernel, in source order
(`i32` storage read as its 32-bit pattern; every mask is positive so the
`i32` arithmetic agrees with `ℕ` arithmetic on the pattern). -/
def Dequant3Bit.fieldList : List (ℕ → ℕ) :=
  [fun v => (v &&& 0x38000000) >>> 27, fun v => (v &&& 0x07000000) >>> 24,
   fun v => (v &&& 0x00E00000) >>> 21, fun v => (v &&& 0x001C0000) >>> 18,
   fun v => (v &&& 0x00038000) >>> 15, fun v => (v &&& 0x00007000) >>> 12,
   fun v => (v &&& 0x00000E00) >>> 9, fun v => (v &&& 0x000001C0) >>> 6,
   fun v => (v &&& 0x00000038) >>> 3, fun v => v &&& 0x00000007]

/-- `Dequant3Bit::dequantize`, output `w.len() * 10` elements. -/
def Dequant3Bit.dequantize (self : Dequant3Bit) (w : List ℕ) (s z : List ℚ) :
    Option (List ℚ) :=
  dequantizeG Dequant3Bit.fieldList self.h self.w w s z

/-- `Dequant3Bit::cpu_fwd` (PACK_FACTOR = 10, weight must be `I32`). -/
def Dequant3Bit.cpu_fwd (self : Dequant3Bit) (w : CpuStorage) (l_w : Layout)
    (s : CpuStorage) (l_s : Layout) (z : CpuStorage) (l_z : Layout) :
    Option (Except String (CpuStorage × List ℕ)) :=
  match w with
  | CpuStorage.I32 w_slice =>
    if !(l_w.contiguous && l_s.contiguous && l_z.contiguous) then
      some (Except.error "All inputs must be contiguous")
    else
      floatDispatch (fun ss zs => self.dequantize w_slice ss zs) [10 * self.h, self.w] s z
  | _ => some (Except.error "Weight must be i32, HQQ dequant 3-bit")

/-- Index for the five supported bit-widths. -/
inductive HqqBits where
  | one | two | three | four | eight
deriving DecidableEq

/-- Pack factor per bit-width (values per storage unit). -/
def hqqPack : HqqBits → ℕ
  | .one => 8
  | .two => 4
  | .three => 10
  | .four => 2
  | .eight => 1

/-- Number of bits per value. -/
def hqqBitsN : HqqBits → ℕ
  | .one => 1
  | .two => 2
  | .three => 3
  | .four => 4
  | .eight => 8

/-- Range of a storage unit: `u8` for 1/2/4/8-bit, 32-bit pattern for 3-bit. -/
def hqqStorageBound : HqqBits → ℕ
  | .three => 2 ^ 32
  | _ => 2 ^ 8

/-- The extraction-expression list of each width's kernel. -/
def hqqFieldList : HqqBits → List (ℕ → ℕ)
  | .one => Dequant1Bit.fieldList
  | .two => Dequant2Bit.fieldList
  | .three => Dequant3Bit.fieldList
  | .four => Dequant4Bit.fieldList
  | .eight => Dequant8Bit.fieldList

/-- The dequantize kernel of each width. -/
def hqqDequant : HqqBits → ℕ → ℕ → List ℕ → List ℚ → List ℚ → Option (List ℚ)
  | .one, h, w => (Dequant1Bit.mk h w).dequantize
  | .two, h, w => (Dequant2Bit.mk h w).dequantize
  | .three, h, w => (Dequant3Bit.mk h w).dequantize
  | .four, h, w => (Dequant4Bit.mk h w).dequantize
  | .eight, h, w => (Dequant8Bit.mk h w).dequantize

/-- The `cpu_fwd` entry point of each width. -/
def hqqCpuFwd : HqqBits → ℕ → ℕ → CpuStorage → Layout → CpuStorage → Layout →
    CpuStorage → Layout → Option (Except String (CpuStorage × List ℕ))
  | .one, h, w => (Dequant1Bit.mk h w).cpu_fwd
  | .two, h, w => (Dequant2Bit.mk h w).cpu_fwd
  | .three, h, w => (Dequant3Bit.mk h w).cpu_fwd
  | .four, h, w => (Dequant4Bit.mk h w).cpu_fwd
  | .eight, h, w => (Dequant8Bit.mk h w).cpu_fwd

/-- The declared storage variant of each width, wrapping a raw unit list. -/
def hqqStorage : HqqBits → List ℕ → CpuStorage
  | .three, l => CpuStorage.I32 l
  | _, l => CpuStorage.U8 l

/-- Whether a weight storage has the element type the width declares. -/
def storageTypeOk : HqqBits → CpuStorage → Bool
  | .three, CpuStorage.I32 _ => true
  | .three, _ => false
  | .one, CpuStorage.U8 _ => true
  | .two, CpuStorage.U8 _ => true
  | .four, CpuStorage.U8 _ => true
  | .eight, CpuStorage.U8 _ => true
  | _, _ => false

/-- Whether scale and zero share one of the three supported float types. -/
def floatPairOk : CpuStorage → CpuStorage → Bool
  | CpuStorage.F32 _, CpuStorage.F32 _ => true
  | CpuStorage.F16 _, CpuStorage.F16 _ => true
  | CpuStorage.BF16 _, CpuStorage.BF16 _ => true
  | _, _ => false

/-- The three supported float element types. -/
inductive FloatKind where
  | f32 | f16 | bf16
deriving DecidableEq

/-- Wrap a rational slice in the storage variant of a float kind. -/
def mkFloatStorage : FloatKind → List ℚ → CpuStorage
  | .f32, l => CpuStorage.F32 l
  | .f16, l => CpuStorage.F16 l
  | .bf16, l => CpuStorage.BF16 l

/-- Specification-side field extraction: the `k`-th of `p` MSB-to-LSB
`bits`-wide fields of a storage unit. -/
def msbField (bits p k v : ℕ) : ℕ :=
  (v >>> ((p - 1 - k) * bits)) % 2 ^ bits

lemma setChecked_lt {out : List ℚ} {idx : ℕ} {v : ℚ} (h : idx < out.length) :
    setChecked out idx v = some (out.set idx v) := by
  simp [setChecked, h]

lemma setChecked_ge {out : List ℚ} {idx : ℕ} {v : ℚ} (h : out.length ≤ idx) :
    setChecked out idx v = none := by
  simp [setChecked]
  omega

lemma writeFields_some (nrows i v : ℕ) (zv sv : ℚ) (fs : List (ℕ → ℕ)) (k : ℕ)
    (out : List ℚ) (hb : ∀ t, t < fs.length → i + nrows * (k + t) < out.length) :
    ∃ out1, writeFields nrows i v zv sv fs k out = some out1 ∧
      out1.length = out.length := by
  induction fs generalizing k out with
  | nil => exact ⟨out, rfl, rfl⟩
  | cons f fs ih =>
    have h0 : i + nrows * k < out.length := by
      have := hb 0 (by simp)
      simpa using this
    rw [writeFields, setChecked_lt h0]
    have hlen : (out.set (i + nrows * k) ((((f v : ℕ) : ℚ) - zv) * sv)).length = out.length := by
      simp
    obtain ⟨out1, h1, h2⟩ := ih (k + 1)
      (out.set (i + nrows * k) ((((f v : ℕ) : ℚ) - zv) * sv))
      (by
        intro t ht
        rw [hlen]
        have := hb (t + 1) (by simpa using ht)
        have harith : k + (t + 1) = k + 1 + t := by omega
        rwa [harith] at this)
    exact ⟨out1, h1, by rw [h2, hlen]⟩

lemma writeFields_ok (nrows i v : ℕ) (zv sv : ℚ) (fs : List (ℕ → ℕ)) (k : ℕ)
    (out : List ℚ) (hnr : 0 < nrows)
    (hb : ∀ t, t < fs.length → i + nrows * (k + t) < out.length) :
    ∃ out1, writeFields nrows i v zv sv fs k out = some out1 ∧
      out1.length = out.length ∧
      (∀ t, t < fs.length →
        out1[i + nrows * (k + t)]? = some ((((fs.getD t id v : ℕ) : ℚ) - zv) * sv)) ∧
      (∀ m, (∀ t, t < fs.length → m ≠ i + nrows * (k + t)) → out1[m]? = out[m]?) := by
  induction fs generalizing k out with
  | nil => exact ⟨out, rfl, rfl, by intro t ht; simp at ht, fun m _ => rfl⟩
  | cons f fs ih =>
    have h0 : i + nrows * k < out.length := by
      have := hb 0 (by simp)
      simpa using this
    rw [writeFields, setChecked_lt h0]
    set out2 := out.set (i + nrows * k) ((((f v : ℕ) : ℚ) - zv) * sv) with hout2
    have hlen2 : out2.length = out.length := by simp [hout2]
    obtain ⟨out1, h1, h2, h3, h4⟩ := ih (k + 1) out2
      (by
        intro t ht
        rw [hlen2]
        have := hb (t + 1) (by simpa using ht)
        have harith : k + (t + 1) = k + 1 + t := by omega
        rwa [harith] at this)
    refine ⟨out1, h1, by rw [h2, hlen2], ?_, ?_⟩
    · intro t ht
      match t with
      | 0 =>
        have hne : ∀ t, t < fs.length → i + nrows * (k + 0) ≠ i + nrows * (k + 1 + t) := by
          intro t _
          have : nrows * (k + 0) < nrows * (k + 1 + t) :=
            mul_lt_mul_of_pos_left (by omega) hnr
          omega
        rw [h4 _ hne]
        simp only [hout2, Nat.add_zero]
        rw [List.getElem?_set_self h0]
        simp
      | t + 1 =>
        have := h3 t (by simpa using ht)
        have harith : k + 1 + t = k + (t + 1) := by omega
        rw [harith] at this
        simpa using this
    · intro m hm
      have hm1 : ∀ t, t < fs.length → m ≠ i + nrows * (k + 1 + t) := by
        intro t ht
        have := hm (t + 1) (by simpa using ht)
        have harith : k + (t + 1) = k + 1 + t := by omega
        rwa [harith] at this
      rw [h4 m hm1, hout2, List.getElem?_set_ne]
      have := hm 0 (by simp)
      simpa using this.symm


lemma getElem?_eq_some_getD {l : List ℚ} {j : ℕ} (h : j < l.length) :
    l[j]? = some (l.getD j 0) := by
  rw [List.getElem?_eq_getElem h, List.getD_eq_getElem l 0 h]

lemma dequantLoop_cons_eq {fields : List (ℕ → ℕ)} {h w : ℕ} {s z : List ℚ}
    {v : ℕ} {vs : List ℕ} {i : ℕ} {out out2 : List ℚ} {zv sv : ℚ}
    (hw : ¬ w = 0) (hzv : z[i % w]? = some zv) (hsv : s[i % w]? = some sv)
    (hwf : writeFields (h * w) i v zv sv fields 0 out = some out2) :
    dequantLoop fields h w s z (v :: vs) i out =
      dequantLoop fields h w s z vs (i + 1) out2 := by
  simp only [dequantLoop, rustMod, if_neg hw, hzv, hsv, hwf]

lemma dequantLoop_cons_modzero {fields : List (ℕ → ℕ)} {h w : ℕ} {s z : List ℚ}
    {v : ℕ} {vs : List ℕ} {i : ℕ} {out : List ℚ} (hw : w = 0) :
    dequantLoop fields h w s z (v :: vs) i out = none := by
  simp only [dequantLoop, rustMod, if_pos hw]

lemma dequantLoop_cons_zoob {fields : List (ℕ → ℕ)} {h w : ℕ} {s z : List ℚ}
    {v : ℕ} {vs : List ℕ} {i : ℕ} {out : List ℚ}
    (hw : ¬ w = 0) (hzv : z[i % w]? = none) :
    dequantLoop fields h w s z (v :: vs) i out = none := by
  simp only [dequantLoop, rustMod, if_neg hw, hzv]

lemma dequantLoop_cons_soob {fields : List (ℕ → ℕ)} {h w : ℕ} {s z : List ℚ}
    {v : ℕ} {vs : List ℕ} {i : ℕ} {out : List ℚ} {zv : ℚ}
    (hw : ¬ w = 0) (hzv : z[i % w]? = some zv) (hsv : s[i % w]? = none) :
    dequantLoop fields h w s z (v :: vs) i out = none := by
  simp only [dequantLoop, rustMod, if_neg hw, hzv, hsv]

lemma dequantLoop_cons_wfoob {fields : List (ℕ → ℕ)} {h w : ℕ} {s z : List ℚ}
    {v : ℕ} {vs : List ℕ} {i : ℕ} {out : List ℚ} {zv sv : ℚ}
    (hw : ¬ w = 0) (hzv : z[i % w]? = some zv) (hsv : s[i % w]? = some sv)
    (hwf : writeFields (h * w) i v zv sv fields 0 out = none) :
    dequantLoop fields h w s z (v :: vs) i out = none := by
  simp only [dequantLoop, rustMod, if_neg hw, hzv, hsv, hwf]

lemma dequantLoop_ok (fields : List (ℕ → ℕ)) (h w : ℕ) (s z : List ℚ)
    (vs : List ℕ) (i : ℕ) (out : List ℚ)
    (hw : 0 < w) (hiv : i + vs.length ≤ h * w)
    (hs : w ≤ s.length) (hz : w ≤ z.length)
    (hb : ∀ t k, t < vs.length → k < fields.length →
      (i + t) + (h * w) * k < out.length) :
    ∃ out1, dequantLoop fields h w s z vs i out = some out1 ∧
      out1.length = out.length ∧
      (∀ t k, t < vs.length → k < fields.length →
        out1[(i + t) + (h * w) * k]? =
          some ((((fields.getD k id (vs.getD t 0) : ℕ) : ℚ) - z.getD ((i + t) % w) 0)
            * s.getD ((i + t) % w) 0)) ∧
      (∀ m, (∀ t k, t < vs.length → k < fields.length → m ≠ (i + t) + (h * w) * k) →
        out1[m]? = out[m]?) := by
  induction vs generalizing i out with
  | nil =>
    exact ⟨out, rfl, rfl, by intro t k ht _; simp at ht, fun m _ => rfl⟩
  | cons v vs ih =>
    have hnr : 0 < h * w := by
      have hlen : (v :: vs).length = vs.length + 1 := rfl
      omega
    have hj : i % w < w := Nat.mod_lt _ hw
    have hzv := getElem?_eq_some_getD (show i % w < z.length by omega)
    have hsv := getElem?_eq_some_getD (show i % w < s.length by omega)
    obtain ⟨out2, hwf, hlen2, hwrite, hkeep⟩ :=
      writeFields_ok (h * w) i v (z.getD (i % w) 0) (s.getD (i % w) 0) fields 0 out hnr
        (by
          intro t ht
          have := hb 0 t (by simp) ht
          simpa using this)
    rw [dequantLoop_cons_eq (by omega) hzv hsv hwf]
    obtain ⟨out1, h1, h2, h3, h4⟩ := ih (i + 1) out2
      (by simp at hiv ⊢; omega)
      (by
        intro t k ht hk
        rw [hlen2]
        have := hb (t + 1) k (by simpa using ht) hk
        have harith : i + (t + 1) = i + 1 + t := by omega
        rwa [harith] at this)
    refine ⟨out1, h1, by rw [h2, hlen2], ?_, ?_⟩
    · intro t k ht hk
      match t with
      | 0 =>
        have hne2 : ∀ t k1, t < vs.length → k1 < fields.length →
            (i + 0) + (h * w) * k ≠ (i + 1 + t) + (h * w) * k1 := by
          intro t k1 ht1 hk1
          intro heq
          have hu1 : i < h * w := by omega
          have hu2 : i + 1 + t < h * w := by
            simp at hiv
            omega
          have hm1 : ((i + 0) + (h * w) * k) % (h * w) = i := by
            rw [Nat.add_mul_mod_self_left]
            simp [Nat.mod_eq_of_lt hu1]
          have hm2 : ((i + 1 + t) + (h * w) * k1) % (h * w) = i + 1 + t := by
            rw [Nat.add_mul_mod_self_left]
            exact Nat.mod_eq_of_lt hu2
          rw [heq, hm2] at hm1
          omega
        rw [h4 _ hne2]
        have := hwrite k hk
        simp only [Nat.zero_add] at this ⊢
        convert this using 3
      | t + 1 =>
        have := h3 t k (by simpa using ht) hk
        have harith : i + 1 + t = i + (t + 1) := by omega
        rw [harith] at this
        simpa using this
    · intro m hm
      have hm1 : ∀ t k, t < vs.length → k < fields.length →
          m ≠ (i + 1 + t) + (h * w) * k := by
        intro t k ht hk
        have := hm (t + 1) k (by simpa using ht) hk
        have harith : i + (t + 1) = i + 1 + t := by omega
        rwa [harith] at this
      rw [h4 m hm1]
      apply hkeep
      intro t ht
      have := hm 0 t (by simp) ht
      simpa using this

lemma dequantizeG_ok (fields : List (ℕ → ℕ)) (h w : ℕ) (ws : List ℕ)
    (s z : List ℚ) (hlen : ws.length = h * w) (hs : w ≤ s.length)
    (hz : w ≤ z.length) :
    ∃ out, dequantizeG fields h w ws s z = some out ∧
      out.length = ws.length * fields.length ∧
      (∀ i k, i < h * w → k < fields.length →
        out[i + (h * w) * k]? =
          some ((((fields.getD k id (ws.getD i 0) : ℕ) : ℚ) - z.getD (i % w) 0)
            * s.getD (i % w) 0)) := by
  rcases ws with _ | ⟨v, vs⟩
  · have h0 : h * w = 0 := by simpa using hlen.symm
    refine ⟨[], by simp [dequantizeG, dequantLoop], by simp, ?_⟩
    intro i k hi _
    rw [h0] at hi
    exact absurd hi (by omega)
  · have hnr : 0 < h * w := by
      rw [← hlen]
      simp
    have hw : 0 < w := by
      rcases Nat.eq_zero_or_pos w with h0 | h0
      · rw [h0, Nat.mul_zero] at hnr
        exact absurd hnr (by omega)
      · exact h0
    obtain ⟨out, h1, h2, h3, _⟩ :=
      dequantLoop_ok fields h w s z (v :: vs) 0
        (List.replicate ((v :: vs).length * fields.length) (0 : ℚ))
        hw (by omega) hs hz
        (by
          intro t k ht hk
          simp only [List.length_replicate, Nat.zero_add]
          calc t + (h * w) * k < (h * w) + (h * w) * k := by omega
            _ = (h * w) * (k + 1) := by ring
            _ ≤ (h * w) * fields.length := Nat.mul_le_mul_left _ (by omega)
            _ = (v :: vs).length * fields.length := by rw [hlen])
    refine ⟨out, h1, by simpa using h2, ?_⟩
    intro i k hi hk
    have := h3 i k (by omega) hk
    simpa using this

lemma writeFields_none (nrows i v : ℕ) (zv sv : ℚ) (fs : List (ℕ → ℕ)) (k : ℕ)
    (out : List ℚ)
    (hbad : ∃ t, t < fs.length ∧ out.length ≤ i + nrows * (k + t)) :
    writeFields nrows i v zv sv fs k out = none := by
  induction fs generalizing k out with
  | nil => simp at hbad
  | cons f fs ih =>
    rcases Nat.lt_or_ge (i + nrows * k) out.length with h0 | h0
    · rw [writeFields, setChecked_lt h0]
      apply ih
      obtain ⟨t, ht, hge⟩ := hbad
      match t with
      | 0 =>
        exfalso
        simp at hge
        omega
      | t + 1 =>
        refine ⟨t, by simpa using ht, ?_⟩
        simp only [List.length_set]
        have harith : k + (t + 1) = k + 1 + t := by omega
        rwa [harith] at hge
    · rw [writeFields, setChecked_ge h0]

lemma dequantLoop_none (fields : List (ℕ → ℕ)) (h w : ℕ) (s z : List ℚ)
    (vs : List ℕ) (i : ℕ) (out : List ℚ)
    (hbad : ∃ t, t < vs.length ∧
      (w = 0 ∨ z.length ≤ (i + t) % w ∨ s.length ≤ (i + t) % w ∨
        ∃ k, k < fields.length ∧ out.length ≤ (i + t) + (h * w) * k)) :
    dequantLoop fields h w s z vs i out = none := by
  induction vs generalizing i out with
  | nil => simp at hbad
  | cons v vs ih =>
    rcases Nat.eq_zero_or_pos w with hw0 | hw
    · exact dequantLoop_cons_modzero hw0
    rcases Nat.lt_or_ge (i % w) z.length with hzlt | hzge
    swap
    · exact dequantLoop_cons_zoob (by omega) (List.getElem?_eq_none hzge)
    rcases Nat.lt_or_ge (i % w) s.length with hslt | hsge
    swap
    · exact dequantLoop_cons_soob (by omega) (getElem?_eq_some_getD hzlt)
        (List.getElem?_eq_none hsge)
    by_cases hwb : ∃ k, k < fields.length ∧ out.length ≤ i + (h * w) * k
    · refine dequantLoop_cons_wfoob (by omega) (getElem?_eq_some_getD hzlt)
        (getElem?_eq_some_getD hslt) (writeFields_none _ _ _ _ _ _ _ _ ?_)
      obtain ⟨k, hk, hge⟩ := hwb
      exact ⟨k, hk, by simpa using hge⟩
    · obtain ⟨out1, hwf, hlen1⟩ :=
        writeFields_some (h * w) i v (z.getD (i % w) 0) (s.getD (i % w) 0) fields 0 out
          (by
            intro t ht
            simp only [Nat.zero_add]
            by_contra hc
            exact hwb ⟨t, ht, by omega⟩)
      rw [dequantLoop_cons_eq (by omega) (getElem?_eq_some_getD hzlt)
        (getElem?_eq_some_getD hslt) hwf]
      apply ih
      obtain ⟨t, ht, hcase⟩ := hbad
      match t with
      | 0 =>
        exfalso
        rcases hcase with h0 | h0 | h0 | ⟨k, hk, hge⟩
        · omega
        · simp at h0
          omega
        · simp at h0
          omega
        · exact hwb ⟨k, hk, by simpa using hge⟩
      | t + 1 =>
        refine ⟨t, by simpa using ht, ?_⟩
        rw [hlen1]
        have harith : i + (t + 1) = i + 1 + t := by omega
        rwa [harith] at hcase

lemma maskField (b sh v : ℕ) :
    (v &&& ((2 ^ b - 1) <<< sh)) >>> sh = (v >>> sh) % 2 ^ b := by
  apply Nat.eq_of_testBit_eq
  intro i
  simp only [Nat.testBit_shiftRight, Nat.testBit_and, Nat.testBit_shiftLeft,
    Nat.testBit_mod_two_pow, Nat.testBit_two_pow_sub_one]
  have h1 : sh + i - sh = i := by omega
  have h2 : sh + i ≥ sh := by omega
  simp [h1, h2, Bool.and_comm]

lemma hqqFieldList_length (b : HqqBits) : (hqqFieldList b).length = hqqPack b := by
  cases b <;> rfl

lemma hqqDequant_eq (b : HqqBits) (h w : ℕ) :
    hqqDequant b h w = dequantizeG (hqqFieldList b) h w := by
  cases b <;> rfl

lemma hqqField_eq_msbField (b : HqqBits) (k v : ℕ) (hk : k < hqqPack b)
    (hv : v < hqqStorageBound b) :
    (hqqFieldList b).getD k id v = msbField (hqqBitsN b) (hqqPack b) k v := by
  cases b with
  | eight =>
    have hk2 : k < 1 := hk
    interval_cases k
    simp only [hqqFieldList, Dequant8Bit.fieldList, hqqBitsN, hqqPack, msbField,
      List.getD_cons_zero, id_eq, Nat.shiftRight_zero]
    have hv2 : v < 2 ^ 8 := hv
    simp [msbField]
    omega
  | four =>
    have m0 := maskField 4 4 v
    have m1 := maskField 4 0 v
    norm_num [Nat.shiftLeft_eq] at m0 m1
    have hk2 : k < 2 := hk
    interval_cases k <;>
      simp [hqqFieldList, Dequant4Bit.fieldList, hqqBitsN, hqqPack, msbField, m0, m1]
  | two =>
    have m0 := maskField 2 6 v
    have m1 := maskField 2 4 v
    have m2 := maskField 2 2 v
    have m3 := maskField 2 0 v
    norm_num [Nat.shiftLeft_eq] at m0 m1 m2 m3
    have hk2 : k < 4 := hk
    interval_cases k <;>
      simp [hqqFieldList, Dequant2Bit.fieldList, hqqBitsN, hqqPack, msbField, m0, m1, m2, m3]
  | one =>
    have m0 := maskField 1 7 v
    have m1 := maskField 1 6 v
    have m2 := maskField 1 5 v
    have m3 := maskField 1 4 v
    have m4 := maskField 1 3 v
    have m5 := maskField 1 2 v
    have m6 := maskField 1 1 v
    have m7 := maskField 1 0 v
    norm_num [Nat.shiftLeft_eq] at m0 m1 m2 m3 m4 m5 m6
    have hk2 : k < 8 := hk
    interval_cases k <;>
      simp [hqqFieldList, Dequant1Bit.fieldList, hqqBitsN, hqqPack, msbField,
        m0, m1, m2, m3, m4, m5, m6, Nat.and_one_is_mod]
  | three =>
    have m0 := maskField 3 27 v
    have m1 := maskField 3 24 v
    have m2 := maskField 3 21 v
    have m3 := maskField 3 18 v
    have m4 := maskField 3 15 v
    have m5 := maskField 3 12 v
    have m6 := maskField 3 9 v
    have m7 := maskField 3 6 v
    have m8 := maskField 3 3 v
    have m9 := maskField 3 0 v
    norm_num [Nat.shiftLeft_eq] at m0 m1 m2 m3 m4 m5 m6 m7 m8 m9
    have hk2 : k < 10 := hk
    interval_cases k <;>
      simp [hqqFieldList, Dequant3Bit.fieldList, hqqBitsN, hqqPack, msbField,
        m0, m1, m2, m3, m4, m5, m6, m7, m8, m9]


lemma hqqPack_pos (b : HqqBits) : 0 < hqqPack b := by
  cases b <;> simp [hqqPack]

lemma hqqGetD_lt_bound (b : HqqBits) (ws : List ℕ) (i : ℕ) (hi : i < ws.length)
    (hvb : ∀ v ∈ ws, v < hqqStorageBound b) : ws.getD i 0 < hqqStorageBound b := by
  rw [List.getD_eq_getElem ws 0 hi]
  exact hvb _ (List.getElem_mem hi)

lemma hqqCpuFwd_good (b : HqqBits) (h w : ℕ) (ws : List ℕ) (fk : FloatKind)
    (s z out : List ℚ) (hd : hqqDequant b h w ws s z = some out) :
    hqqCpuFwd b h w (hqqStorage b ws) ⟨true⟩ (mkFloatStorage fk s) ⟨true⟩
      (mkFloatStorage fk z) ⟨true⟩ =
      some (Except.ok (mkFloatStorage fk out, [hqqPack b * h, w])) := by
  cases b <;> simp only [hqqDequant] at hd <;> cases fk <;>
    simp [hqqCpuFwd, hqqStorage, mkFloatStorage, hqqPack,
      Dequant8Bit.cpu_fwd, Dequant4Bit.cpu_fwd, Dequant2Bit.cpu_fwd,
      Dequant1Bit.cpu_fwd, Dequant3Bit.cpu_fwd, floatDispatch, hd]

lemma floatDispatch_mismatch (deq : List ℚ → List ℚ → Option (List ℚ))
    (shape : List ℕ) (s z : CpuStorage) (hm : floatPairOk s z = false) :
    floatDispatch deq shape s z =
      some (Except.error "Dtype mismatch, expected one of f32, f16, bf16") := by
  cases s <;> cases z <;> simp_all [floatPairOk, floatDispatch]

/-- C1: for every bit-width in (1, 2, 3, 4, 8), the pack factor is
1/2/4/8/10 for 8/4/2/1/3-bit, and CPU dequantization of a well-shaped input
(storage of exactly h*w units, scale/zero of at least w entries, units in
the range of the declared storage type) extracts the pack_factor fields of
each storage unit MSB-to-LSB into pack_factor stacked blocks of h rows: the
element at flat index i + h*w*k is (field_k(unit_i) - zero[i mod w]) *
scale[i mod w], the output has pack_factor*h*w elements, and `cpu_fwd`
returns it (for each of the three float types) with shape
[pack_factor * h, w]. -/
theorem C1_dequantize_blocks :
    (hqqPack HqqBits.eight = 1 ∧ hqqPack HqqBits.four = 2 ∧
      hqqPack HqqBits.two = 4 ∧ hqqPack HqqBits.one = 8 ∧
      hqqPack HqqBits.three = 10) ∧
    ∀ (b : HqqBits) (h w : ℕ) (ws : List ℕ) (s z : List ℚ),
      ws.length = h * w → w ≤ s.length → w ≤ z.length →
      (∀ v ∈ ws, v < hqqStorageBound b) →
      ∃ out, hqqDequant b h w ws s z = some out ∧
        out.length = hqqPack b * (h * w) ∧
        (∀ i k, i < h * w → k < hqqPack b →
          out[i + (h * w) * k]? =
            some (((msbField (hqqBitsN b) (hqqPack b) k (ws.getD i 0) : ℚ)
              - z.getD (i % w) 0) * s.getD (i % w) 0)) ∧
        (∀ fk, hqqCpuFwd b h w (hqqStorage b ws) ⟨true⟩ (mkFloatStorage fk s) ⟨true⟩
            (mkFloatStorage fk z) ⟨true⟩ =
          some (Except.ok (mkFloatStorage fk out, [hqqPack b * h, w]))) := by
  refine ⟨⟨rfl, rfl, rfl, rfl, rfl⟩, ?_⟩
  intro b h w ws s z hlen hs hz hvb
  obtain ⟨out, h1, h2, h3⟩ := dequantizeG_ok (hqqFieldList b) h w ws s z hlen hs hz
  have h1b : hqqDequant b h w ws s z = some out := by rw [hqqDequant_eq]; exact h1
  refine ⟨out, h1b, ?_, ?_, fun fk => hqqCpuFwd_good b h w ws fk s z out h1b⟩
  · rw [h2, hlen, hqqFieldList_length, Nat.mul_comm]
  · intro i k hi hk
    have hi2 : i < ws.length := by omega
    have := h3 i k hi (by rwa [hqqFieldList_length])
    rwa [hqqField_eq_msbField b k (ws.getD i 0) hk (hqqGetD_lt_bound b ws i hi2 hvb)]
      at this

/-- C1 witness: concrete 4-bit instance h = 1, w = 1, one packed byte 0x12,
scale [2], zero [1]. -/
theorem C1_dequantize_blocks_witness :
    ∃ out, hqqDequant HqqBits.four 1 1 [18] [2] [1] = some out ∧
      out.length = hqqPack HqqBits.four * (1 * 1) ∧
      (∀ i k, i < 1 * 1 → k < hqqPack HqqBits.four →
        out[i + (1 * 1) * k]? =
          some (((msbField (hqqBitsN HqqBits.four) (hqqPack HqqBits.four) k
              (([18] : List ℕ).getD i 0) : ℚ)
            - ([1] : List ℚ).getD (i % 1) 0) * ([2] : List ℚ).getD (i % 1) 0)) ∧
      (∀ fk, hqqCpuFwd HqqBits.four 1 1 (hqqStorage HqqBits.four [18]) ⟨true⟩
          (mkFloatStorage fk [2]) ⟨true⟩ (mkFloatStorage fk [1]) ⟨true⟩ =
        some (Except.ok (mkFloatStorage fk out, [hqqPack HqqBits.four * 1, 1]))) :=
  C1_dequantize_blocks.2 HqqBits.four 1 1 [18] [2] [1] (by decide) (by decide)
    (by decide) (by decide)

/-- C4 (amended): every precondition violation (wrong weight storage type,
any non-contiguous input, scale/zero not a matching supported float pair) is
a returned error with no output tensor; and when the preconditions hold and
the input is well-shaped (storage of exactly h*w units, scale and zero of at
least w entries), `cpu_fwd` returns a dequantized tensor of shape
[pack_factor * h, w]. -/
theorem C4_cpu_fwd_preconditions :
    (∀ (b : HqqBits) (h w : ℕ) (wst : CpuStorage) (l_w : Layout)
        (sst : CpuStorage) (l_s : Layout) (zst : CpuStorage) (l_z : Layout),
      (storageTypeOk b wst = false ∨
        (l_w.contiguous && l_s.contiguous && l_z.contiguous) = false ∨
        floatPairOk sst zst = false) →
      ∃ e, hqqCpuFwd b h w wst l_w sst l_s zst l_z = some (Except.error e)) ∧
    (∀ (b : HqqBits) (h w : ℕ) (ws : List ℕ) (fk : FloatKind) (s z : List ℚ),
      ws.length = h * w → w ≤ s.length → w ≤ z.length →
      ∃ out, hqqCpuFwd b h w (hqqStorage b ws) ⟨true⟩ (mkFloatStorage fk s) ⟨true⟩
          (mkFloatStorage fk z) ⟨true⟩ =
        some (Except.ok (mkFloatStorage fk out, [hqqPack b * h, w]))) := by
  constructor
  · intro b h w wst l_w sst l_s zst l_z hviol
    cases b <;> cases wst <;>
      first
        | exact ⟨_, rfl⟩
        | (rcases hviol with hst | hc | hf
           · exact absurd hst (by simp [storageTypeOk])
           · exact ⟨"All inputs must be contiguous",
               by simp [hqqCpuFwd, Dequant8Bit.cpu_fwd, Dequant4Bit.cpu_fwd,
                 Dequant2Bit.cpu_fwd, Dequant1Bit.cpu_fwd, Dequant3Bit.cpu_fwd, hc]⟩
           · by_cases hcb : (l_w.contiguous && l_s.contiguous && l_z.contiguous) = true
             · exact ⟨"Dtype mismatch, expected one of f32, f16, bf16",
                 by simp [hqqCpuFwd, Dequant8Bit.cpu_fwd, Dequant4Bit.cpu_fwd,
                   Dequant2Bit.cpu_fwd, Dequant1Bit.cpu_fwd, Dequant3Bit.cpu_fwd, hcb,
                   floatDispatch_mismatch _ _ _ _ hf]⟩
             · exact ⟨"All inputs must be contiguous",
                 by simp [hqqCpuFwd, Dequant8Bit.cpu_fwd, Dequant4Bit.cpu_fwd,
                   Dequant2Bit.cpu_fwd, Dequant1Bit.cpu_fwd, Dequant3Bit.cpu_fwd,
                   Bool.eq_false_iff.2 hcb]⟩)
  · intro b h w ws fk s z hlen hs hz
    obtain ⟨out, h1, _, _⟩ := dequantizeG_ok (hqqFieldList b) h w ws s z hlen hs hz
    exact ⟨out, hqqCpuFwd_good b h w ws fk s z out (by rw [hqqDequant_eq]; exact h1)⟩

/-- C4 counterexample: a 2-bit call whose storage type, contiguity and
float-pair preconditions all hold (h = 1, w = 2, contiguous u8 weight [5],
f32 scale [1,1] and zero [0,0]) does not return a tensor at all: the
kernel panics (out-of-bounds store) because the storage slice has fewer
than h*w units, refuting the claim that the listed preconditions suffice
for a dequantized tensor to be returned. -/
theorem C4_cpu_fwd_preconditions_counterexample :
    hqqCpuFwd HqqBits.two 1 2 (CpuStorage.U8 [5]) ⟨true⟩
      (CpuStorage.F32 [1, 1]) ⟨true⟩ (CpuStorage.F32 [0, 0]) ⟨true⟩ = none := rfl

/-- C4 witness: the first part at a wrong-typed weight (3-bit with u8
storage) and the second part at a well-shaped 8-bit input. -/
theorem C4_cpu_fwd_preconditions_witness :
    (∃ e, hqqCpuFwd HqqBits.three 1 1 (CpuStorage.U8 [3]) ⟨true⟩
      (CpuStorage.F32 [1]) ⟨true⟩ (CpuStorage.F32 [0]) ⟨true⟩ =
        some (Except.error e)) ∧
    (∃ out, hqqCpuFwd HqqBits.eight 1 1 (hqqStorage HqqBits.eight [7]) ⟨true⟩
        (mkFloatStorage FloatKind.f32 [2]) ⟨true⟩
        (mkFloatStorage FloatKind.f32 [1]) ⟨true⟩ =
      some (Except.ok (mkFloatStorage FloatKind.f32 out,
        [hqqPack HqqBits.eight * 1, 1]))) :=
  ⟨C4_cpu_fwd_preconditions.1 HqqBits.three 1 1 (CpuStorage.U8 [3]) ⟨true⟩
      (CpuStorage.F32 [1]) ⟨true⟩ (CpuStorage.F32 [0]) ⟨true⟩
      (Or.inl (by decide)),
   C4_cpu_fwd_preconditions.2 HqqBits.eight 1 1 [7] FloatKind.f32 [2] [1]
      (by decide) (by decide) (by decide)⟩

/-- C9 (amended): the dtype/contiguity checks do not make dequantization
total over input lengths, but the panic pattern is narrower than claimed:
(1) for every width of pack factor greater than 1, a nonempty storage slice
with fewer than h*w units makes the kernel index out of bounds (a panic,
`none`, not a typed error); (2) for every width, if w is positive, the
storage has at least w units and scale or zero has fewer than w entries,
the kernel reads out of bounds; (3) under the precondition that the storage
has exactly h*w units and scale and zero have at least w entries, every
access is in bounds and the output has exactly pack_factor*h*w elements. -/
theorem C9_dequantize_bounds :
    (∀ b : HqqBits, b ≠ HqqBits.eight →
      ∀ (h w : ℕ) (ws : List ℕ) (s z : List ℚ), ws ≠ [] → ws.length < h * w →
        hqqDequant b h w ws s z = none) ∧
    (∀ (b : HqqBits) (h w : ℕ) (ws : List ℕ) (s z : List ℚ),
      0 < w → w ≤ ws.length → (s.length < w ∨ z.length < w) →
      hqqDequant b h w ws s z = none) ∧
    (∀ (b : HqqBits) (h w : ℕ) (ws : List ℕ) (s z : List ℚ),
      ws.length = h * w → w ≤ s.length → w ≤ z.length →
      ∃ out, hqqDequant b h w ws s z = some out ∧
        out.length = hqqPack b * (h * w)) := by
  refine ⟨?_, ?_, ?_⟩
  · intro b hb8 h w ws s z hne hlt
    have hp : 2 ≤ hqqPack b := by
      cases b <;> first | (exact absurd rfl hb8) | simp [hqqPack]
    obtain ⟨q, hq⟩ : ∃ q, hqqPack b = q + 2 := ⟨hqqPack b - 2, by omega⟩
    obtain ⟨n, hn⟩ : ∃ n, ws.length = n + 1 :=
      ⟨ws.length - 1, by cases ws with | nil => exact absurd rfl hne | cons a l => simp⟩
    rw [hqqDequant_eq, dequantizeG]
    apply dequantLoop_none
    refine ⟨n, by omega, Or.inr (Or.inr (Or.inr ⟨q + 1, ?_, ?_⟩))⟩
    · rw [hqqFieldList_length]; omega
    · simp only [List.length_replicate, hqqFieldList_length, Nat.zero_add, hq, hn]
      have hkey : (n + 2) * (q + 1) ≤ (h * w) * (q + 1) :=
        Nat.mul_le_mul_right _ (by omega)
      nlinarith
  · intro b h w ws s z hw hwl hsz
    rw [hqqDequant_eq, dequantizeG]
    apply dequantLoop_none
    refine ⟨min s.length z.length, by omega, ?_⟩
    have hmod : (0 + min s.length z.length) % w = min s.length z.length := by
      rw [Nat.zero_add]
      exact Nat.mod_eq_of_lt (by omega)
    rcases Nat.le_total s.length z.length with hle | hle
    · exact Or.inr (Or.inr (Or.inl (by omega)))
    · exact Or.inr (Or.inl (by omega))
  · intro b h w ws s z hlen hs hz
    obtain ⟨out, h1, h2, _⟩ := dequantizeG_ok (hqqFieldList b) h w ws s z hlen hs hz
    refine ⟨out, by rw [hqqDequant_eq]; exact h1, ?_⟩
    rw [h2, hlen, hqqFieldList_length, Nat.mul_comm]

/-- C9 counterexample: the 8-bit kernel on a storage slice of 1 unit with
h = 1, w = 2 (so storage length differs from h*w = 2, and the claim asserts
an out-of-bounds panic) completes normally and returns a 1-element output. -/
theorem C9_dequantize_bounds_counterexample :
    (hqqDequant HqqBits.eight 1 2 [5] [1, 1] [0, 0]).isSome = true ∧
    (hqqDequant HqqBits.eight 1 2 [5] [1, 1] [0, 0]).map List.length = some 1 :=
  ⟨rfl, rfl⟩

/-- C9 witness: part (1) at a concrete 2-bit short-storage input, part (3)
at a concrete well-shaped 2-bit input. -/
theorem C9_dequantize_bounds_witness :
    hqqDequant HqqBits.two 1 2 [5] [1, 1] [0, 0] = none ∧
    (∃ out, hqqDequant HqqBits.two 1 2 [5, 9] [1, 1] [0, 0] = some out ∧
      out.length = hqqPack HqqBits.two * (1 * 2)) :=
  ⟨C9_dequantize_bounds.1 HqqBits.two (by decide) 1 2 [5] [1, 1] [0, 0]
      (by decide) (by decide),
   C9_dequantize_bounds.2.2 HqqBits.two 1 2 [5, 9] [1, 1] [0, 0]
      (by decide) (by decide) (by decide)⟩

end Hqq

namespace Layers

/-- Element types of candle tensors, as far as the layer code inspects them. -/
inductive DType where
  | F16 | BF16 | F32 | F64 | U8 | U32 | I64
deriving DecidableEq

/-- Process-wide reduced-precision state: the `USE_MATMUL_VIA_F16` atomic
and the crate-level one-way `INHIBIT_GEMM_F16` gate, modelled as an explicit
state record (the source reads/writes them with relaxed atomic ordering). -/
structure GemmState where
  use_matmul_via_f16 : Bool
  inhibit_gemm_f16 : Bool
deriving DecidableEq

/-- `set_use_matmul_via_f16`: store the flag unless the inhibit gate is set. -/
def set_use_matmul_via_f16 (st : GemmState) (via_f16 : Bool) : GemmState :=
  if !st.inhibit_gemm_f16 then { st with use_matmul_via_f16 := via_f16 } else st

/-- `get_use_matmul_via_f16`: load the flag. -/
def get_use_matmul_via_f16 (st : GemmState) : Bool :=
  st.use_matmul_via_f16

/-- The candle tensor operations `MatMul::matmul` uses, abstract over the
tensor type (candle is an external collaborator); fallible ops return
`Except` like candle's `Result`, `dtype` is an infallible accessor. -/
structure MatMulOps (T : Type) where
  matmul : T → T → Except String T
  to_dtype : T → DType → Except String T
  dtype : T → DType

/-- `MatMul::matmul`: multiply directly unless the global flag is set, in
which case cast both operands to f16, multiply, and cast the result back to
the first operand's original dtype. -/
def MatMul.matmul {T : Type} (ops : MatMulOps T) (st : GemmState) (a b : T) :
    Except String T :=
  if !(get_use_matmul_via_f16 st) then ops.matmul a b
  else do
    let a16 ← ops.to_dtype a DType.F16
    let b16 ← ops.to_dtype b DType.F16
    let m ← ops.matmul a16 b16
    ops.to_dtype m (ops.dtype a)

/-- candle `QMatMul`, restricted to the variants this layer constructs:
a quantized weight or a dense tensor weight (payloads abstract). -/
inductive QMatMulM (T : Type) where
  | QTensor : T → QMatMulM T
  | Tensor : T → QMatMulM T

/-- `QLinear { inner, bias, dtype }`. -/
structure QLinear (T : Type) where
  inner : QMatMulM T
  bias : Option T
  dtype : DType

/-- `QLinear::is_quant`: whether the stored weight is the quantized variant. -/
def QLinear.is_quant {T : Type} (self : QLinear T) : Bool :=
  match self.inner with
  | QMatMulM.QTensor _ => true
  | _ => false

/-- The operations `QLinear::forward` uses: dtype casts, bias broadcast-add,
and the two (plain / via-f16) `QMatMul` forward paths of candle. -/
structure QLinearOps (T : Type) where
  to_dtype : T → DType → Except String T
  broadcast_add : T → T → Except String T
  qmatmul_forward : QMatMulM T → T → Except String T
  qmatmul_forward_via_f16 : QMatMulM T → T → Except String T

/-- `QLinear::forward` (the `Module` impl): upcast the input to f32 when the
weight is quantized, pick the forward path from the global flag, multiply,
add the bias if present, and cast to the stored restore dtype. -/
def QLinear.forward {T : Type} (ops : QLinearOps T) (st : GemmState)
    (self : QLinear T) (xs : T) : Except String T := do
  let xs ← if self.is_quant then ops.to_dtype xs DType.F32 else pure xs
  let forward_fn := if !(get_use_matmul_via_f16 st) then ops.qmatmul_forward
    else ops.qmatmul_forward_via_f16
  match self.bias with
  | some bias => do
    let y ← forward_fn self.inner xs
    let yb ← ops.broadcast_add y bias
    ops.to_dtype yb self.dtype
  | none => do
    let y ← forward_fn self.inner xs
    ops.to_dtype y self.dtype


/-- `ScaledRopeType`: the two accepted scaled-RoPE variant tags
(`su`/`longrope` parse to `Su`, `yarn` to `Yarn`). -/
inductive ScaledRopeType where
  | Su | Yarn
deriving DecidableEq

/-- `PhiRopeScalingConfig`: classic scaling, or scaling with explicit
post-multipliers. -/
inductive PhiRopeScalingConfig where
  | Classic (short_factor long_factor : List ℚ) (scaling_type : ScaledRopeType)
  | Scaled (short_factor long_factor : List ℚ) (scaling_type : ScaledRopeType)
      (long_mscale short_mscale : ℚ)

/-- `PhiRopeConfig`. -/
structure PhiRopeConfig where
  rope_scaling : Option PhiRopeScalingConfig
  max_position_embeddings : ℕ
  original_max_position_embeddings : ℕ
  rope_theta : ℚ
  head_dim : ℕ

/-- f64 transcendental functions, abstract: the claims under study concern
lengths and control flow, never the numeric values these produce. -/
structure FloatOps where
  ln : ℚ → ℚ
  sqrt : ℚ → ℚ
  powf : ℚ → ℚ → ℚ

/-- The candle tensor constructors/operations the rotary constructors use,
abstract over the tensor type and total: on the shapes produced here the
underlying candle calls cannot fail, and no claim under study concerns
their values. -/
structure TensorOps (T : Type) where
  arange : ℕ → ℕ → T
  to_dtype : T → DType → T
  reshape2 : T → ℕ → ℕ → T
  from_vec : List ℚ → ℕ → ℕ → T
  from_vec1 : List ℚ → ℕ → T
  matmul : T → T → T
  tsin : T → T
  tcos : T → T
  mul_scalar : T → ℚ → T

/-- `PhiRotaryEmbedding`, generic in the table (tensor) type. -/
structure PhiRotaryEmbedding (T : Type) where
  short_sin : T
  short_cos : T
  long_cos : Option T
  long_sin : Option T
  original_max_position_embeddings : ℕ

/-- `(0..dim).step_by(2)`. -/
def stepBy2 (dim : ℕ) : List ℕ :=
  (List.range dim).filter (fun i => i % 2 == 0)

/-- The `(0..dim).step_by(2).enumerate().map(|(k, i)| 1/(factor[k] * theta^(i/dim)))`
iterator, with the checked slice index `factor[k]` (out of bounds = panic =
`none`), consumed left to right; `is` carries the remaining step values and
`k` the enumeration counter. -/
def invFreqLoop (fops : FloatOps) (factor : List ℚ) (theta dimQ : ℚ) :
    List ℕ → ℕ → Option (List ℚ)
  | [], _ => some []
  | i :: is, k =>
    match factor[k]? with
    | none => none
    | some f =>
      match invFreqLoop fops factor theta dimQ is (k + 1) with
      | none => none
      | some rest => some ((1 / (f * fops.powf theta ((i : ℚ) / dimQ))) :: rest)

/-- The rescaled inverse-frequency vector of the classic/scaled Phi
constructors. -/
def invFreqScaled (fops : FloatOps) (factor : List ℚ) (theta : ℚ) (dim : ℕ) :
    Option (List ℚ) :=
  invFreqLoop fops factor theta (dim : ℚ) (stepBy2 dim) 0

/-- `PhiRotaryEmbedding::new_classic_scaled`: derive `scaling_factor` from
`scale = max_position / original_max_position` and the variant tag, build
the long then the short inverse-frequency vectors (unchecked factor
indexing!), then the two sin/cos table pairs, each multiplied by
`scaling_factor`. -/
def PhiRotaryEmbedding.new_classic_scaled {T : Type} (fops : FloatOps)
    (tops : TensorOps T) (short_factor long_factor : List ℚ)
    (scaling_type : ScaledRopeType) (cfg : PhiRopeConfig) (dtype : DType) :
    Option (Except String (PhiRotaryEmbedding T)) :=
  let max_seq_len := cfg.max_position_embeddings
  let dim := cfg.head_dim
  let scale : ℚ :=
    (cfg.max_position_embeddings : ℚ) / (cfg.original_max_position_embeddings : ℚ)
  let scaling_factor : ℚ :=
    if scale ≤ 1 then 1
    else
      match scaling_type with
      | ScaledRopeType.Su =>
        fops.sqrt (1 + fops.ln scale / fops.ln (cfg.original_max_position_embeddings : ℚ))
      | ScaledRopeType.Yarn => (1 / 10 : ℚ) * fops.ln scale + 1
  match invFreqScaled fops long_factor cfg.rope_theta dim with
  | none => none
  | some inv_freq_long =>
    match invFreqScaled fops short_factor cfg.rope_theta dim with
    | none => none
    | some inv_freq_short =>
      let inv_freq_len := inv_freq_long.length
      let t := tops.reshape2 (tops.to_dtype (tops.arange 0 max_seq_len) DType.F32)
        max_seq_len 1
      let inv_freq_long_t := tops.from_vec inv_freq_long 1 inv_freq_len
      let freqs_long := tops.matmul t inv_freq_long_t
      let long_sin := tops.to_dtype (tops.mul_scalar (tops.tsin freqs_long) scaling_factor) dtype
      let long_cos := tops.to_dtype (tops.mul_scalar (tops.tcos freqs_long) scaling_factor) dtype
      let inv_freq_short_t := tops.to_dtype (tops.from_vec inv_freq_short 1 inv_freq_len) DType.F32
      let freqs_short := tops.matmul t inv_freq_short_t
      let short_sin := tops.to_dtype (tops.mul_scalar (tops.tsin freqs_short) scaling_factor) dtype
      let short_cos := tops.to_dtype (tops.mul_scalar (tops.tcos freqs_short) scaling_factor) dtype
      some (Except.ok
        { short_cos := short_cos, short_sin := short_sin,
          long_cos := some long_cos, long_sin := some long_sin,
          original_max_position_embeddings := cfg.original_max_position_embeddings })

/-- `PhiRotaryEmbedding::new_unscaled`: one sin/cos table pair, no long
tables. -/
def PhiRotaryEmbedding.new_unscaled {T : Type} (fops : FloatOps)
    (tops : TensorOps T) (cfg : PhiRopeConfig) (dtype : DType) :
    Option (Except String (PhiRotaryEmbedding T)) :=
  let max_seq_len := cfg.max_position_embeddings
  let dim := cfg.head_dim
  let inv_freq := (stepBy2 dim).map
    (fun i => 1 / fops.powf cfg.rope_theta ((i : ℚ) / (dim : ℚ)))
  let inv_freq_len := inv_freq.length
  let inv_freq_t := tops.from_vec inv_freq 1 inv_freq_len
  let t := tops.reshape2 (tops.to_dtype (tops.arange 0 max_seq_len) DType.F32)
    max_seq_len 1
  let freqs := tops.matmul t inv_freq_t
  some (Except.ok
    { short_cos := tops.to_dtype (tops.tcos freqs) dtype,
      short_sin := tops.to_dtype (tops.tsin freqs) dtype,
      long_cos := none, long_sin := none,
      original_max_position_embeddings := cfg.original_max_position_embeddings })

/-- `PhiRotaryEmbedding::new_scaled` (the variant with explicit
post-multipliers): the tag must be `su`/`longrope` and both factor arrays
must have length exactly `dim / 2` (typed configuration errors); the tables
are multiplied by `short_mscale` / `long_mscale` after the dtype cast. -/
def PhiRotaryEmbedding.new_scaled {T : Type} (fops : FloatOps)
    (tops : TensorOps T) (short_factor long_factor : List ℚ)
    (scaling_type : ScaledRopeType) (long_mscale short_mscale : ℚ)
    (cfg : PhiRopeConfig) (dtype : DType) :
    Option (Except String (PhiRotaryEmbedding T)) :=
  let max_seq_len := cfg.max_position_embeddings
  let dim := cfg.head_dim
  match scaling_type with
  | ScaledRopeType.Yarn =>
    some (Except.error
      "Scaled Phi3 RoPE (non-classic scaled, with mscales) must have type su/longrope.")
  | ScaledRopeType.Su =>
    if short_factor.length ≠ dim / 2 then
      some (Except.error "Misaligned length for su/longrope short rescale factors")
    else if long_factor.length ≠ dim / 2 then
      some (Except.error "Misaligned length for su/longrope long rescale factors")
    else
      match invFreqScaled fops short_factor cfg.rope_theta dim with
      | none => none
      | some inv_freq_short =>
        match invFreqScaled fops long_factor cfg.rope_theta dim with
        | none => none
        | some inv_freq_long =>
          let t_short := tops.reshape2 (tops.to_dtype (tops.arange 0 max_seq_len) DType.F32)
            max_seq_len 1
          let freqs_short := tops.matmul t_short
            (tops.from_vec inv_freq_short 1 inv_freq_short.length)
          let sin_short := tops.mul_scalar (tops.to_dtype (tops.tsin freqs_short) dtype) short_mscale
          let cos_short := tops.mul_scalar (tops.to_dtype (tops.tcos freqs_short) dtype) short_mscale
          let t_long := tops.reshape2 (tops.to_dtype (tops.arange 0 max_seq_len) DType.F32)
            max_seq_len 1
          let freqs_long := tops.matmul t_long
            (tops.from_vec inv_freq_long 1 inv_freq_long.length)
          let sin_long := tops.mul_scalar (tops.to_dtype (tops.tsin freqs_long) dtype) long_mscale
          let cos_long := tops.mul_scalar (tops.to_dtype (tops.tcos freqs_long) dtype) long_mscale
          some (Except.ok
            { short_cos := cos_short, short_sin := sin_short,
              long_cos := some cos_long, long_sin := some sin_long,
              original_max_position_embeddings := cfg.original_max_position_embeddings })

/-- `PhiRotaryEmbedding::new`: dispatch on the scaling configuration. -/
def PhiRotaryEmbedding.new {T : Type} (fops : FloatOps) (tops : TensorOps T)
    (dtype : DType) (cfg : PhiRopeConfig) :
    Option (Except String (PhiRotaryEmbedding T)) :=
  match cfg.rope_scaling with
  | some (PhiRopeScalingConfig.Classic sf lf st) =>
    PhiRotaryEmbedding.new_classic_scaled fops tops sf lf st cfg dtype
  | some (PhiRopeScalingConfig.Scaled sf lf st lm sm) =>
    PhiRotaryEmbedding.new_scaled fops tops sf lf st lm sm cfg dtype
  | none => PhiRotaryEmbedding.new_unscaled fops tops cfg dtype

/-- `PhiRotaryEmbedding::get_long_or_short_sin_cos`: if no long table, the
short pair; otherwise `seq_len = max(position_ids).unwrap() + 1` (panic on
an empty slice) selects long when
`seq_len > original_max_position_embeddings`, short otherwise. -/
def PhiRotaryEmbedding.get_long_or_short_sin_cos {T : Type}
    (self : PhiRotaryEmbedding T) (position_ids : List ℕ) : Option (T × T) :=
  if self.long_cos.isNone then some (self.short_sin, self.short_cos)
  else
    match position_ids.max? with
    | none => none
    | some m =>
      if m + 1 > self.original_max_position_embeddings then
        match self.long_sin, self.long_cos with
        | some ls, some lc => some (ls, lc)
        | _, _ => none
      else some (self.short_sin, self.short_cos)

/-- The candle tensor operations `PhiRotaryEmbedding::forward` uses,
abstract over the tensor type; fallible ops return `Except` like candle's
`Result`. -/
structure RopeOps (T : Type) where
  dims4 : T → Except String (ℕ × ℕ × ℕ × ℕ)
  narrow : T → ℕ → ℕ → ℕ → Except String T
  index_i : T → ℕ → Except String T
  unsqueeze : T → ℕ → Except String T
  contiguous : T → Except String T
  rope : T → T → T → Except String T
  cat : List T → ℕ → Except String T

/-- The `for (i, offset) in seqlen_offsets.iter().enumerate()` loop of
`PhiRotaryEmbedding::forward`: narrow both tables to the sequence window and
rotate the i-th batch entry of q and k. -/
def forwardLoop {T : Type} (ops : RopeOps T) (sin cos : T) (seq_len : ℕ)
    (q k : T) : List ℕ → ℕ → List T → List T → Except String (List T × List T)
  | [], _, q_embeds, k_embeds => Except.ok (q_embeds, k_embeds)
  | offset :: rest, i, q_embeds, k_embeds => do
    let cos_n ← ops.narrow cos 0 offset seq_len
    let sin_n ← ops.narrow sin 0 offset seq_len
    let qi ← ops.index_i q i
    let qi ← ops.unsqueeze qi 0
    let qi ← ops.contiguous qi
    let q_embed ← ops.rope qi cos_n sin_n
    let ki ← ops.index_i k i
    let ki ← ops.unsqueeze ki 0
    let ki ← ops.contiguous ki
    let k_embed ← ops.rope ki cos_n sin_n
    forwardLoop ops sin cos seq_len q k rest (i + 1)
      (q_embeds ++ [q_embed]) (k_embeds ++ [k_embed])

/-- `PhiRotaryEmbedding::forward`: read `q.dims4()?`, select the table pair
from the position ids, rotate every sequence at its own offset, and
concatenate the per-sequence results. -/
def PhiRotaryEmbedding.forward {T : Type} (ops : RopeOps T)
    (self : PhiRotaryEmbedding T) (q k : T)
    (seqlen_offsets position_ids : List ℕ) :
    Option (Except String (T × T)) :=
  match ops.dims4 q with
  | Except.error e => some (Except.error e)
  | Except.ok (_b_sz, _h, seq_len, _n_embd) =>
    match self.get_long_or_short_sin_cos position_ids with
    | none => none
    | some (sin, cos) =>
      match forwardLoop ops sin cos seq_len q k seqlen_offsets 0 [] [] with
      | Except.error e => some (Except.error e)
      | Except.ok (q_embeds, k_embeds) =>
        match ops.cat q_embeds 0 with
        | Except.error e => some (Except.error e)
        | Except.ok qc =>
          match ops.cat k_embeds 0 with
          | Except.error e => some (Except.error e)
          | Except.ok kc => some (Except.ok (qc, kc))

/-- `Qwen2VLRotaryEmbedding { inv_freq, mrope_section }`. -/
structure Qwen2VLRotaryEmbedding (T : Type) where
  inv_freq : T
  mrope_section : List ℕ

/-- `Qwen2VLRotaryEmbedding::new`: build the inverse-frequency vector from
`base` and `head_dim` and store `mrope_section` as given — the section
widths are not validated here. -/
def Qwen2VLRotaryEmbedding.new {T : Type} (fops : FloatOps)
    (tops : TensorOps T) (base : ℚ) (head_dim : ℕ) (mrope_section : List ℕ) :
    Except String (Qwen2VLRotaryEmbedding T) :=
  let inv_freq := (stepBy2 head_dim).map
    (fun i => 1 / fops.powf base ((i : ℚ) / (head_dim : ℚ)))
  let inv_freq_len := inv_freq.length
  Except.ok
    { inv_freq := tops.to_dtype (tops.from_vec1 inv_freq inv_freq_len) DType.F32,
      mrope_section := mrope_section }


lemma stepBy2_length (dim : ℕ) : (stepBy2 dim).length = (dim + 1) / 2 := by
  induction dim with
  | zero => rfl
  | succ n ih =>
    unfold stepBy2 at ih ⊢
    rw [List.range_succ, List.filter_append, List.length_append, ih]
    by_cases hn : n % 2 = 0
    · have h1 : (List.filter (fun i => i % 2 == 0) [n]).length = 1 := by
        simp [List.filter, hn]
      rw [h1]
      omega
    · have hn1 : n % 2 = 1 := by omega
      have h1 : (List.filter (fun i => i % 2 == 0) [n]).length = 0 := by
        simp [List.filter, hn1]
      rw [h1]
      omega

lemma invFreqLoop_some (fops : FloatOps) (factor : List ℚ) (theta dimQ : ℚ)
    (is : List ℕ) (k : ℕ) (h : k + is.length ≤ factor.length) :
    ∃ l, invFreqLoop fops factor theta dimQ is k = some l := by
  induction is generalizing k with
  | nil => exact ⟨[], rfl⟩
  | cons i is ih =>
    have hk : k < factor.length := by simp at h; omega
    obtain ⟨l, hl⟩ := ih (k + 1) (by simp at h ⊢; omega)
    refine ⟨(1 / (factor[k] * fops.powf theta ((i : ℚ) / dimQ))) :: l, ?_⟩
    rw [invFreqLoop, List.getElem?_eq_getElem hk, hl]

lemma invFreqLoop_none (fops : FloatOps) (factor : List ℚ) (theta dimQ : ℚ)
    (is : List ℕ) (k : ℕ) (hne : is ≠ []) (h : factor.length < k + is.length) :
    invFreqLoop fops factor theta dimQ is k = none := by
  induction is generalizing k with
  | nil => exact absurd rfl hne
  | cons i is ih =>
    rcases Nat.lt_or_ge k factor.length with hk | hk
    · have hne2 : is ≠ [] := by
        intro h0
        subst h0
        simp at h
        omega
      have := ih (k + 1) hne2 (by simp at h ⊢; omega)
      simp [invFreqLoop, List.getElem?_eq_getElem hk, this]
    · simp [invFreqLoop, List.getElem?_eq_none hk]

lemma invFreqLoop_take (fops : FloatOps) (factor : List ℚ) (theta dimQ : ℚ)
    (is : List ℕ) (k c : ℕ) (h : k + is.length ≤ c) :
    invFreqLoop fops factor theta dimQ is k =
      invFreqLoop fops (factor.take c) theta dimQ is k := by
  induction is generalizing k with
  | nil => rfl
  | cons i is ih =>
    have hk : k < c := by simp at h; omega
    have hget : (factor.take c)[k]? = factor[k]? := by
      simp [List.getElem?_take, hk]
    rw [invFreqLoop, invFreqLoop, hget, ih (k + 1) (by simp at h ⊢; omega)]

lemma invFreqScaled_some (fops : FloatOps) (factor : List ℚ) (theta : ℚ)
    (dim : ℕ) (h : (dim + 1) / 2 ≤ factor.length) :
    ∃ l, invFreqScaled fops factor theta dim = some l :=
  invFreqLoop_some fops factor theta (dim : ℚ) (stepBy2 dim) 0
    (by rw [stepBy2_length]; omega)

lemma invFreqScaled_none (fops : FloatOps) (factor : List ℚ) (theta : ℚ)
    (dim : ℕ) (h : factor.length < (dim + 1) / 2) :
    invFreqScaled fops factor theta dim = none := by
  have hlen : (stepBy2 dim).length = (dim + 1) / 2 := stepBy2_length dim
  apply invFreqLoop_none
  · intro h0
    rw [h0] at hlen
    simp at hlen
    omega
  · omega

lemma invFreqScaled_take (fops : FloatOps) (factor : List ℚ) (theta : ℚ)
    (dim : ℕ) :
    invFreqScaled fops factor theta dim =
      invFreqScaled fops (factor.take ((dim + 1) / 2)) theta dim :=
  invFreqLoop_take fops factor theta (dim : ℚ) (stepBy2 dim) 0 ((dim + 1) / 2)
    (by rw [stepBy2_length]; omega)

lemma get_long_or_short_no_long {T : Type} (e : PhiRotaryEmbedding T)
    (h : e.long_cos = none) (pos : List ℕ) :
    e.get_long_or_short_sin_cos pos = some (e.short_sin, e.short_cos) := by
  simp [PhiRotaryEmbedding.get_long_or_short_sin_cos, h]

lemma get_long_or_short_empty {T : Type} (e : PhiRotaryEmbedding T)
    (h : e.long_cos.isSome) :
    e.get_long_or_short_sin_cos [] = none := by
  obtain ⟨lc, hlc⟩ := Option.isSome_iff_exists.mp h
  simp [PhiRotaryEmbedding.get_long_or_short_sin_cos, hlc]


lemma new_classic_scaled_take {T : Type} (fops : FloatOps) (tops : TensorOps T)
    (sf lf : List ℚ) (st : ScaledRopeType) (cfg : PhiRopeConfig) (dtype : DType) :
    PhiRotaryEmbedding.new_classic_scaled fops tops sf lf st cfg dtype =
      PhiRotaryEmbedding.new_classic_scaled fops tops
        (sf.take ((cfg.head_dim + 1) / 2)) (lf.take ((cfg.head_dim + 1) / 2))
        st cfg dtype := by
  simp only [PhiRotaryEmbedding.new_classic_scaled]
  rw [invFreqScaled_take fops sf cfg.rope_theta cfg.head_dim,
    invFreqScaled_take fops lf cfg.rope_theta cfg.head_dim]

/-- Trivial tensor operations over the unit type, instantiating the
abstract candle interface at concrete inputs. -/
def unitTensorOps : TensorOps Unit where
  arange := fun _ _ => ()
  to_dtype := fun _ _ => ()
  reshape2 := fun _ _ _ => ()
  from_vec := fun _ _ _ => ()
  from_vec1 := fun _ _ => ()
  matmul := fun _ _ => ()
  tsin := fun _ => ()
  tcos := fun _ => ()
  mul_scalar := fun _ _ => ()

/-- Constant float functions for concrete instantiation. -/
def constFloatOps : FloatOps where
  ln := fun _ => 0
  sqrt := fun _ => 0
  powf := fun _ _ => 0

/-- Simple concrete rotary-forward operations over natural-number
stand-in tensors. -/
def natRopeOps : RopeOps ℕ where
  dims4 := fun _ => Except.ok (1, 1, 1, 1)
  narrow := fun t _ _ _ => Except.ok t
  index_i := fun t _ => Except.ok t
  unsqueeze := fun t _ => Except.ok t
  contiguous := fun t => Except.ok t
  rope := fun t _ _ => Except.ok t
  cat := fun _ _ => Except.ok 0

/-- Simple concrete matmul operations over natural-number stand-in
tensors. -/
def natMatMulOps : MatMulOps ℕ where
  matmul := fun a b => Except.ok (a * b)
  to_dtype := fun t _ => Except.ok t
  dtype := fun _ => DType.F32

/-- Simple concrete QLinear operations over natural-number stand-in
tensors. -/
def natQLinearOps : QLinearOps ℕ where
  to_dtype := fun t _ => Except.ok t
  broadcast_add := fun a b => Except.ok (a + b)
  qmatmul_forward := fun _ x => Except.ok x
  qmatmul_forward_via_f16 := fun _ x => Except.ok (x + 1)

/-- C2 (amended): the classic-scaled constructor performs no rescale-length
validation: a short or long factor array with fewer than ceil(dim/2)
entries makes construction panic on an out-of-bounds index instead of
returning a configuration error, and arrays with at least ceil(dim/2)
entries are silently accepted — only their first ceil(dim/2) entries are
used — even when their length differs from dim/2; only the scaled variant
with explicit post-multipliers rejects factor arrays whose length differs
from dim/2 with a typed configuration error. -/
theorem C2_rescale_length_validation :
    (∀ (T : Type) (fops : FloatOps) (tops : TensorOps T) (sf lf : List ℚ)
        (st : ScaledRopeType) (cfg : PhiRopeConfig) (dtype : DType),
      cfg.rope_scaling = some (PhiRopeScalingConfig.Classic sf lf st) →
      (sf.length < (cfg.head_dim + 1) / 2 ∨ lf.length < (cfg.head_dim + 1) / 2) →
      PhiRotaryEmbedding.new fops tops dtype cfg = none) ∧
    (∀ (T : Type) (fops : FloatOps) (tops : TensorOps T) (sf lf : List ℚ)
        (st : ScaledRopeType) (cfg : PhiRopeConfig) (dtype : DType),
      cfg.rope_scaling = some (PhiRopeScalingConfig.Classic sf lf st) →
      (cfg.head_dim + 1) / 2 ≤ sf.length → (cfg.head_dim + 1) / 2 ≤ lf.length →
      (∃ e, PhiRotaryEmbedding.new fops tops dtype cfg = some (Except.ok e)) ∧
      PhiRotaryEmbedding.new fops tops dtype cfg =
        PhiRotaryEmbedding.new_classic_scaled fops tops
          (sf.take ((cfg.head_dim + 1) / 2)) (lf.take ((cfg.head_dim + 1) / 2))
          st cfg dtype) ∧
    (∀ (T : Type) (fops : FloatOps) (tops : TensorOps T) (sf lf : List ℚ)
        (lm sm : ℚ) (cfg : PhiRopeConfig) (dtype : DType),
      cfg.rope_scaling =
        some (PhiRopeScalingConfig.Scaled sf lf ScaledRopeType.Su lm sm) →
      (sf.length ≠ cfg.head_dim / 2 ∨ lf.length ≠ cfg.head_dim / 2) →
      ∃ msg, PhiRotaryEmbedding.new fops tops dtype cfg =
        some (Except.error msg)) := by
  refine ⟨?_, ?_, ?_⟩
  · intro T fops tops sf lf st cfg dtype hcfg hlen
    simp only [PhiRotaryEmbedding.new, hcfg]
    rcases Nat.lt_or_ge lf.length ((cfg.head_dim + 1) / 2) with hlf | hlf
    · simp [PhiRotaryEmbedding.new_classic_scaled,
        invFreqScaled_none fops lf cfg.rope_theta cfg.head_dim hlf]
    · have hsf : sf.length < (cfg.head_dim + 1) / 2 := by
        rcases hlen with h | h
        · exact h
        · omega
      obtain ⟨ll, hll⟩ := invFreqScaled_some fops lf cfg.rope_theta cfg.head_dim hlf
      simp [PhiRotaryEmbedding.new_classic_scaled, hll,
        invFreqScaled_none fops sf cfg.rope_theta cfg.head_dim hsf]
  · intro T fops tops sf lf st cfg dtype hcfg hsf hlf
    obtain ⟨ll, hll⟩ := invFreqScaled_some fops lf cfg.rope_theta cfg.head_dim hlf
    obtain ⟨ls, hls⟩ := invFreqScaled_some fops sf cfg.rope_theta cfg.head_dim hsf
    constructor
    · simp only [PhiRotaryEmbedding.new, hcfg,
        PhiRotaryEmbedding.new_classic_scaled, hll, hls]
      exact ⟨_, rfl⟩
    · simp only [PhiRotaryEmbedding.new, hcfg]
      exact new_classic_scaled_take fops tops sf lf st cfg dtype
  · intro T fops tops sf lf lm sm cfg dtype hcfg hlen
    simp only [PhiRotaryEmbedding.new, hcfg]
    by_cases hsf : sf.length = cfg.head_dim / 2
    · have hlf : lf.length ≠ cfg.head_dim / 2 := by
        rcases hlen with h | h
        · exact absurd hsf h
        · exact h
      refine ⟨"Misaligned length for su/longrope long rescale factors", ?_⟩
      simp [PhiRotaryEmbedding.new_scaled, hsf, hlf]
    · refine ⟨"Misaligned length for su/longrope short rescale factors", ?_⟩
      simp [PhiRotaryEmbedding.new_scaled, hsf]

/-- C2 counterexample: a classic-scaled configuration (type `su`, dim = 8)
with a short_factor array of length 3 = dim/2 − 1 makes construction panic
on an out-of-bounds index (`none`) instead of failing with a returned
configuration error as the claim asserts. -/
theorem C2_rescale_length_validation_counterexample :
    PhiRotaryEmbedding.new constFloatOps unitTensorOps DType.F32
      { rope_scaling := some (PhiRopeScalingConfig.Classic [1, 1, 1] [1, 1, 1, 1]
          ScaledRopeType.Su),
        max_position_embeddings := 10, original_max_position_embeddings := 5,
        rope_theta := 2, head_dim := 8 } = none := rfl

/-- C2 witness: a too-short classic factor array panics; an over-long
classic array is silently accepted; the scaled (mscale) variant returns a
typed error on a length mismatch. -/
theorem C2_rescale_length_validation_witness :
    PhiRotaryEmbedding.new constFloatOps unitTensorOps DType.F32
      { rope_scaling := some (PhiRopeScalingConfig.Classic [1] [1, 1, 1, 1]
          ScaledRopeType.Su),
        max_position_embeddings := 10, original_max_position_embeddings := 5,
        rope_theta := 2, head_dim := 8 } = none ∧
    (∃ e, PhiRotaryEmbedding.new constFloatOps unitTensorOps DType.F32
      { rope_scaling := some (PhiRopeScalingConfig.Classic [1, 1, 1, 1, 1]
          [1, 1, 1, 1] ScaledRopeType.Su),
        max_position_embeddings := 10, original_max_position_embeddings := 5,
        rope_theta := 2, head_dim := 8 } = some (Except.ok e)) ∧
    (∃ msg, PhiRotaryEmbedding.new constFloatOps unitTensorOps DType.F32
      { rope_scaling := some (PhiRopeScalingConfig.Scaled [1] [1, 1, 1, 1]
          ScaledRopeType.Su 1 1),
        max_position_embeddings := 10, original_max_position_embeddings := 5,
        rope_theta := 2, head_dim := 8 } = some (Except.error msg)) :=
  ⟨C2_rescale_length_validation.1 Unit constFloatOps unitTensorOps [1] [1, 1, 1, 1]
      ScaledRopeType.Su _ DType.F32 rfl (Or.inl (by decide)),
   (C2_rescale_length_validation.2.1 Unit constFloatOps unitTensorOps
      [1, 1, 1, 1, 1] [1, 1, 1, 1] ScaledRopeType.Su _ DType.F32 rfl
      (by decide) (by decide)).1,
   C2_rescale_length_validation.2.2 Unit constFloatOps unitTensorOps [1] [1, 1, 1, 1]
      1 1 _ DType.F32 rfl (Or.inl (by decide))⟩

/-- C3: with both long tables present, the long pair is selected exactly
when max(position_ids) + 1 exceeds original_max_position_embeddings,
otherwise the short pair; with no long table the short pair is always
selected. -/
theorem C3_table_threshold :
    (∀ (T : Type) (e : PhiRotaryEmbedding T) (pos : List ℕ) (ls lc : T) (m : ℕ),
      e.long_sin = some ls → e.long_cos = some lc → pos.max? = some m →
      e.get_long_or_short_sin_cos pos =
        if m + 1 > e.original_max_position_embeddings then some (ls, lc)
        else some (e.short_sin, e.short_cos)) ∧
    (∀ (T : Type) (e : PhiRotaryEmbedding T) (pos : List ℕ),
      e.long_cos = none →
      e.get_long_or_short_sin_cos pos = some (e.short_sin, e.short_cos)) := by
  constructor
  · intro T e pos ls lc m hls hlc hm
    simp only [PhiRotaryEmbedding.get_long_or_short_sin_cos, hls, hlc, hm,
      Option.isNone_some, Bool.false_eq_true, if_false]
  · intro T e pos h
    exact get_long_or_short_no_long e h pos

/-- C3 witness: original_max_position_embeddings = 100; max position id 99
selects the short tables, max position id 100 selects the long tables. -/
theorem C3_table_threshold_witness :
    PhiRotaryEmbedding.get_long_or_short_sin_cos
      (⟨1, 2, some 4, some 3, 100⟩ : PhiRotaryEmbedding ℕ) [99] = some (1, 2) ∧
    PhiRotaryEmbedding.get_long_or_short_sin_cos
      (⟨1, 2, some 4, some 3, 100⟩ : PhiRotaryEmbedding ℕ) [100] = some (3, 4) := by
  have h99 := C3_table_threshold.1 ℕ ⟨1, 2, some 4, some 3, 100⟩ [99] 3 4 99
    rfl rfl (by decide)
  have h100 := C3_table_threshold.1 ℕ ⟨1, 2, some 4, some 3, 100⟩ [100] 3 4 100
    rfl rfl (by decide)
  constructor
  · simpa using h99
  · simpa using h100

/-- C5: `MatMul::matmul` with the global reduced-precision flag unset is
the direct product in the operands' own dtype; with the flag set it is the
product of both operands cast to f16, the result cast back to the first
operand's original dtype. -/
theorem C5_matmul_via_f16 :
    ∀ (T : Type) (ops : MatMulOps T) (st : GemmState) (a b : T),
      (get_use_matmul_via_f16 st = false →
        MatMul.matmul ops st a b = ops.matmul a b) ∧
      (get_use_matmul_via_f16 st = true →
        MatMul.matmul ops st a b = do
          let a16 ← ops.to_dtype a DType.F16
          let b16 ← ops.to_dtype b DType.F16
          let m ← ops.matmul a16 b16
          ops.to_dtype m (ops.dtype a)) := by
  intro T ops st a b
  constructor <;> intro hf <;> simp [MatMul.matmul, hf]

/-- C5 witness: both flag states at concrete operands. -/
theorem C5_matmul_via_f16_witness :
    MatMul.matmul natMatMulOps ⟨false, false⟩ 2 3 = natMatMulOps.matmul 2 3 ∧
    MatMul.matmul natMatMulOps ⟨true, false⟩ 2 3 = (do
      let a16 ← natMatMulOps.to_dtype 2 DType.F16
      let b16 ← natMatMulOps.to_dtype 3 DType.F16
      let m ← natMatMulOps.matmul a16 b16
      natMatMulOps.to_dtype m (natMatMulOps.dtype 2)) :=
  ⟨(C5_matmul_via_f16 ℕ natMatMulOps ⟨false, false⟩ 2 3).1 rfl,
   (C5_matmul_via_f16 ℕ natMatMulOps ⟨true, false⟩ 2 3).2 rfl⟩

/-- C6 (amended): multi-axis (Qwen2VL) rotary construction performs no
validation of the section widths: for every mrope_section list it succeeds,
storing the sections verbatim next to an inverse-frequency tensor that does
not depend on them; a width mismatch is not a construction-time error. -/
theorem C6_mrope_sections_unvalidated :
    ∀ (T : Type) (fops : FloatOps) (tops : TensorOps T) (base : ℚ)
      (head_dim : ℕ),
      ∃ iv : T, ∀ sections : List ℕ,
        Qwen2VLRotaryEmbedding.new fops tops base head_dim sections =
          Except.ok { inv_freq := iv, mrope_section := sections } := by
  intro T fops tops base head_dim
  exact ⟨_, fun sections => rfl⟩

/-- C6 counterexample: a multi-axis configuration whose section widths
[1, 1, 1] cannot sum to the feature dimension of a head_dim = 8 table is
accepted at construction time (the claim asserts construction fails with a
configuration error). -/
theorem C6_mrope_sections_unvalidated_counterexample :
    Qwen2VLRotaryEmbedding.new constFloatOps unitTensorOps 2 8 [1, 1, 1] =
      Except.ok { inv_freq := (), mrope_section := [1, 1, 1] } := rfl

/-- C7: `QLinear::forward` upcasts the input to f32 exactly when the stored
weight is quantized, multiplies through the flag-selected path, adds the
bias when present, and casts the result to the stored restore dtype; a
dense weight is multiplied without the forced upcast. -/
theorem C7_qlinear_forward :
    ∀ (T : Type) (ops : QLinearOps T) (st : GemmState) (self : QLinear T)
      (xs : T),
      (self.is_quant = true →
        QLinear.forward ops st self xs = do
          let x32 ← ops.to_dtype xs DType.F32
          let y ← (if !(get_use_matmul_via_f16 st) then ops.qmatmul_forward
            else ops.qmatmul_forward_via_f16) self.inner x32
          let yb ← (match self.bias with
            | some bias => ops.broadcast_add y bias
            | none => pure y)
          ops.to_dtype yb self.dtype) ∧
      (self.is_quant = false →
        QLinear.forward ops st self xs = do
          let y ← (if !(get_use_matmul_via_f16 st) then ops.qmatmul_forward
            else ops.qmatmul_forward_via_f16) self.inner xs
          let yb ← (match self.bias with
            | some bias => ops.broadcast_add y bias
            | none => pure y)
          ops.to_dtype yb self.dtype) := by
  intro T ops st self xs
  constructor <;> intro hq <;> cases hb : self.bias <;>
    simp [QLinear.forward, hq, hb]

/-- C7 witness: a quantized weight with a bias, and a dense weight without
one, at concrete inputs. -/
theorem C7_qlinear_forward_witness :
    QLinear.forward natQLinearOps ⟨false, false⟩
        ⟨QMatMulM.QTensor 5, some 1, DType.F32⟩ 7 = (do
      let x32 ← natQLinearOps.to_dtype 7 DType.F32
      let y ← (if !(get_use_matmul_via_f16 ⟨false, false⟩) then
          natQLinearOps.qmatmul_forward
        else natQLinearOps.qmatmul_forward_via_f16) (QMatMulM.QTensor 5) x32
      let yb ← (match (some 1 : Option ℕ) with
        | some bias => natQLinearOps.broadcast_add y bias
        | none => pure y)
      natQLinearOps.to_dtype yb DType.F32) ∧
    QLinear.forward natQLinearOps ⟨false, false⟩
        ⟨QMatMulM.Tensor 5, none, DType.F16⟩ 7 = (do
      let y ← (if !(get_use_matmul_via_f16 ⟨false, false⟩) then
          natQLinearOps.qmatmul_forward
        else natQLinearOps.qmatmul_forward_via_f16) (QMatMulM.Tensor 5) 7
      let yb ← (match (none : Option ℕ) with
        | some bias => natQLinearOps.broadcast_add y bias
        | none => pure y)
      natQLinearOps.to_dtype yb DType.F16) :=
  ⟨(C7_qlinear_forward ℕ natQLinearOps ⟨false, false⟩
      ⟨QMatMulM.QTensor 5, some 1, DType.F32⟩ 7).1 rfl,
   (C7_qlinear_forward ℕ natQLinearOps ⟨false, false⟩
      ⟨QMatMulM.Tensor 5, none, DType.F16⟩ 7).2 rfl⟩

/-- C8: once the inhibit gate is set, any sequence of
`set_use_matmul_via_f16` calls leaves the observable flag value unchanged;
while the gate is unset, `set_use_matmul_via_f16 b` makes the getter
return b. -/
theorem C8_inhibit_gate :
    ∀ (st : GemmState) (bs : List Bool) (b : Bool),
      (st.inhibit_gemm_f16 = true →
        get_use_matmul_via_f16 (bs.foldl set_use_matmul_via_f16 st) =
          get_use_matmul_via_f16 st) ∧
      (st.inhibit_gemm_f16 = false →
        get_use_matmul_via_f16 (set_use_matmul_via_f16 st b) = b) := by
  intro st bs b
  constructor
  · intro hi
    have hfold : ∀ bs2 : List Bool, bs2.foldl set_use_matmul_via_f16 st = st := by
      intro bs2
      induction bs2 with
      | nil => rfl
      | cons b2 bs2 ih =>
        rw [List.foldl_cons,
          show set_use_matmul_via_f16 st b2 = st by
            simp [set_use_matmul_via_f16, hi]]
        exact ih
    rw [hfold]
  · intro hi
    simp [set_use_matmul_via_f16, get_use_matmul_via_f16, hi]

/-- C8 witness: an inhibited state survives a sequence of toggles
unchanged; an uninhibited state takes the stored value. -/
theorem C8_inhibit_gate_witness :
    get_use_matmul_via_f16 ([true, false, true].foldl set_use_matmul_via_f16
        ⟨false, true⟩) = get_use_matmul_via_f16 ⟨false, true⟩ ∧
    get_use_matmul_via_f16 (set_use_matmul_via_f16 ⟨false, false⟩ true) = true :=
  ⟨(C8_inhibit_gate ⟨false, true⟩ [true, false, true] true).1 rfl,
   (C8_inhibit_gate ⟨false, false⟩ [] true).2 rfl⟩

/-- C10: when no long table exists, forward never reads the position ids
(same result on any two position-id slices, and it never panics, so an
empty slice is accepted); when a long table exists and the q dimensions are
readable, an empty position-id slice makes forward panic (`none`, the
unwrap of the maximum of an empty iterator) rather than return a typed
error. -/
theorem C10_empty_position_ids :
    (∀ (T : Type) (ops : RopeOps T) (e : PhiRotaryEmbedding T) (q k : T)
        (offs pos pos' : List ℕ), e.long_cos = none →
      e.forward ops q k offs pos = e.forward ops q k offs pos') ∧
    (∀ (T : Type) (ops : RopeOps T) (e : PhiRotaryEmbedding T) (q k : T)
        (offs pos : List ℕ), e.long_cos = none →
      e.forward ops q k offs pos ≠ none) ∧
    (∀ (T : Type) (ops : RopeOps T) (e : PhiRotaryEmbedding T) (q k : T)
        (offs : List ℕ) (d : ℕ × ℕ × ℕ × ℕ),
      e.long_cos.isSome = true → ops.dims4 q = Except.ok d →
      e.forward ops q k offs [] = none) := by
  refine ⟨?_, ?_, ?_⟩
  · intro T ops e q k offs pos pos' h
    unfold PhiRotaryEmbedding.forward
    rw [get_long_or_short_no_long e h pos, get_long_or_short_no_long e h pos']
  · intro T ops e q k offs pos h
    unfold PhiRotaryEmbedding.forward
    rw [get_long_or_short_no_long e h pos]
    rcases hdq : ops.dims4 q with e1 | d
    · simp
    · obtain ⟨b1, h1, sl, n1⟩ := d
      rcases hfl : forwardLoop ops e.short_sin e.short_cos sl q k offs 0 [] []
        with e2 | qk
      · simp [hfl]
      · obtain ⟨qe, ke⟩ := qk
        rcases hc1 : ops.cat qe 0 with e3 | qc
        · simp [hfl, hc1]
        · rcases hc2 : ops.cat ke 0 with e4 | kc <;> simp [hfl, hc1, hc2]
  · intro T ops e q k offs d hsome hdq
    obtain ⟨b1, h1, sl, n1⟩ := d
    simp only [PhiRotaryEmbedding.forward, hdq, get_long_or_short_empty e hsome]

/-- C10 witness: with no long table an empty position-id slice is accepted;
with a long table it panics. -/
theorem C10_empty_position_ids_witness :
    PhiRotaryEmbedding.forward natRopeOps
      (⟨1, 2, none, none, 100⟩ : PhiRotaryEmbedding ℕ) 0 0 [0] [] ≠ none ∧
    PhiRotaryEmbedding.forward natRopeOps
      (⟨1, 2, some 4, some 3, 100⟩ : PhiRotaryEmbedding ℕ) 0 0 [0] [] = none :=
  ⟨C10_empty_position_ids.2.1 ℕ natRopeOps ⟨1, 2, none, none, 100⟩ 0 0 [0] [] rfl,
   C10_empty_position_ids.2.2 ℕ natRopeOps ⟨1, 2, some 4, some 3, 100⟩ 0 0 [0]
     (1, 1, 1, 1) rfl rfl⟩

end Layers
